import Mathlib

/-!
Verification of the risk-request dispatch pipeline (`gs_quant/api/risk.py`).

The embedding is shallow: Python dicts become insertion-ordered association
lists with last-write-wins update, queues become lists of tagged items
(`QItem.sentinel` models the private shutdown sentinel), exceptions become
`Except`, and a call that would block forever is `Option.none`.  Opaque
domain values (instruments, measures, parameters, scenarios, dates, markets,
decoded payloads) are represented by `Nat`; only their identity matters to
the control logic under verification.
-/

namespace RiskApiModel

/-- One pricing/market point of `RiskRequest.pricing_and_market_data_as_of`. -/
structure AsOf where
  pricingDate : Nat
  market : Nat
deriving DecidableEq, Repr, Inhabited

/-- One position of a request; it wraps an instrument. -/
structure Position where
  instrument : Nat
deriving DecidableEq, Repr, Inhabited

/-- `RiskRequest`: ordered measures, positions and as-of points, plus
parameters, scenario and the synchronous-completion flag. -/
structure RiskRequest where
  measures : List Nat
  positions : List Position
  pricing_and_market_data_as_of : List AsOf
  parameters : Nat
  scenario : Nat
  wait_for_results : Bool
deriving DecidableEq, Repr, Inhabited

/-- `RiskKey(cls, pricing_date, market, parameters, scenario, measure)`
(risk.py lines 224-231); `provider` stands for the api class `cls`. -/
structure RiskKey where
  provider : Nat
  pricingDate : Nat
  market : Nat
  parameters : Nat
  scenario : Nat
  measure : Nat
deriving DecidableEq, Repr, Inhabited

/-- One raw result cell: the backend's dict carrying a `$type` discriminant
and, for error dicts, an `errorString`. -/
structure RawCell where
  ty : String
  errorString : String
  payload : Nat
deriving DecidableEq, Repr, Inhabited

/-- A flattened cell: a raw dict passed through unchanged (no registered
handler), a decoded value, or an `ErrorValue(risk_key, message)`. -/
inductive Cell where
  | raw (c : RawCell)
  | decoded (v : Nat)
  | error (key : RiskKey) (msg : String)
deriving DecidableEq, Repr, Inhabited

/-- A result handler `(raw_cell, risk_key, instrument) -> value`; `.error e`
models the handler raising an exception with message `e`. -/
abbrev Handler := RawCell → RiskKey → Nat → Except String Cell

/-- The decoder registry `result_handlers`, keyed by the `$type` string. -/
abbrev Registry := String → Option Handler

/-- A non-exception batch result for one request: measures x positions x
as-of dates, outermost to innermost. -/
abbrev Grid := List (List (List RawCell))

/-- `results: Union[Iterable, Exception]` of `_handle_results`;
`.error e` is an exception whose `str` is `e`. -/
abbrev RawResult := Except String Grid

abbrev ResultMapKey := RiskKey × Nat

abbrev Entry := ResultMapKey × Cell

/-- A Python dict as an insertion-ordered association list. -/
abbrev ResultMap := List Entry

/-! ## Python dict semantics -/

/-- `d[k] = v` on an insertion-ordered dict: overwrite in place when the key
exists, else append. -/
def pyInsert {κ ν : Type} [DecidableEq κ] (d : List (κ × ν)) (k : κ) (v : ν) :
    List (κ × ν) :=
  if d.any fun e => e.1 = k then d.map fun e => if e.1 = k then (k, v) else e
  else d ++ [(k, v)]

/-- `d.update(entries)`: one `pyInsert` per entry in order. -/
def pyUpdate {κ ν : Type} [DecidableEq κ] (d : List (κ × ν))
    (entries : List (κ × ν)) : List (κ × ν) :=
  entries.foldl (fun a e => pyInsert a e.1 e.2) d

/-- `d[k]` lookup. -/
def pyGet {κ ν : Type} [DecidableEq κ] (d : List (κ × ν)) (k : κ) : Option ν :=
  (d.find? fun e => e.1 = k).map Prod.snd

/-! ## Channel Bridge (risk.py lines 51-100) -/

/-- A channel item: a payload, or the private shutdown sentinel
`Sentinel('QueueListenerShutdown')`. -/
inductive QItem (α : Type) where
  | sentinel
  | item (a : α)
deriving DecidableEq, Repr

/-- The `while True: ... get_nowait()` loop of `__handle_queue_update`
(lines 61-69): with no concurrent producer, `get_nowait` succeeds until the
queue is empty, so the loop consumes the whole queue; a sentinel sets the
shutdown flag (and is dropped), any other item is appended. -/
def drainLoop {α : Type} : List (QItem α) → Bool → List α → Bool × List α
  | [], shutdown, acc => (shutdown, acc)
  | .sentinel :: rest, _, acc => drainLoop rest true acc
  | .item a :: rest, shutdown, acc => drainLoop rest shutdown (acc ++ [a])

/-- `__handle_queue_update(q, first)` (lines 52-71).  Besides the returned
pair it yields the state the queue is left in: untouched when `first` is the
sentinel (the early return at line 56), fully drained otherwise. -/
def handle_queue_update {α : Type} (q : List (QItem α)) (first : QItem α) :
    (Bool × List α) × List (QItem α) :=
  match first with
  | .sentinel => ((true, []), q)
  | .item a => (drainLoop q false [a], [])

/-- `drain_queue(q)` (lines 73-75): `q.get()` blocks until an item exists —
on an empty queue with no producer it never returns, modelled as `none`. -/
def drain_queue {α : Type} (q : List (QItem α)) :
    Option ((Bool × List α) × List (QItem α)) :=
  match q with
  | [] => none
  | first :: rest => some (handle_queue_update rest first)

/-! ## Default batch capability (risk.py lines 47-49) -/

/-- `calc_multi(requests) = {request: cls.calc(request) for request in requests}`:
a dict comprehension, built by inserting one entry per request in iteration
order. -/
def calc_multi {Res : Type} (calcFn : RiskRequest → Res)
    (requests : List RiskRequest) : List (RiskRequest × Res) :=
  requests.foldl (fun d r => pyInsert d r (calcFn r)) []

/-! ## Result Flattener `_handle_results` (risk.py lines 210-241) -/

def mkKey (provider : Nat) (a : AsOf) (req : RiskRequest) (m : Nat) : RiskKey :=
  ⟨provider, a.pricingDate, a.market, req.parameters, req.scenario, m⟩

/-- The `{'$type': 'Error', 'errorString': str(results)}` dict (line 216). -/
def errorDict (msg : String) : RawCell := ⟨"Error", msg, 0⟩

/-- Lines 215-218: the synthetic all-error grid built when `results` is an
exception, via list replication. -/
def errorGrid (req : RiskRequest) (msg : String) : Grid :=
  List.replicate req.measures.length
    (List.replicate req.positions.length
      (List.replicate req.pricing_and_market_data_as_of.length (errorDict msg)))

/-- Lines 223-237 for one `(measure, position, as_of, date_result)` triple:
look the handler up by `$type`, apply it, and on an exception from the
handler substitute `ErrorValue(risk_key, str(e))` (the log record at line
237 is outside the model).  No registered handler passes the raw cell
through unchanged. -/
def applyHandler (handlers : Registry) (dateResult : RawCell) (riskKey : RiskKey)
    (instrument : Nat) : Cell :=
  match handlers dateResult.ty with
  | some h =>
    match h dateResult riskKey instrument with
    | .ok c => c
    | .error e => Cell.error riskKey e
  | none => Cell.raw dateResult

/-- One assignment `formatted_results[(risk_key, position.instrument)] = result`
(lines 223-239), as a function of the triple and its own raw cell only. -/
def flattenEntry (provider : Nat) (handlers : Registry) (req : RiskRequest)
    (m : Nat) (pos : Position) (a : AsOf) (dateResult : RawCell) : Entry :=
  ((mkKey provider a req m, pos.instrument),
    applyHandler handlers dateResult (mkKey provider a req m) pos.instrument)

/-- `_handle_results(request, results)` (lines 210-241) as the ordered
sequence of dict assignments it performs: the three nested `zip` loops of
lines 220-222 (Python `zip` stops at the shorter operand).  The
`formatted_results` dict itself is recovered by `pyUpdate [] (...)`;
updating an accumulator with this sequence is exactly updating it with the
dict, since equal keys collapse last-write-wins either way. -/
def handle_results (provider : Nat) (handlers : Registry) (request : RiskRequest)
    (results : RawResult) : List Entry :=
  let grid : Grid :=
    match results with
    | .error e => errorGrid request e
    | .ok g => g
  (request.measures.zip grid).flatMap fun mp =>
    (request.positions.zip mp.2).flatMap fun pp =>
      (request.pricing_and_market_data_as_of.zip pp.2).map fun ap =>
        flattenEntry provider handlers request mp.1 pp.1 ap.1 ap.2

/-- Modelled from the spec: the decoder registry `result_handlers` is
imported from `gs_quant.risk.result_handlers`, which is not part of this
source tree.  Per the spec, a whole-batch failure must surface as uniform
error cells carrying the computed ResultKey and the exception message, so
the registry's decoder for the `Error` discriminant produces an error value
from the dict's `errorString`; no other discriminant is modelled. -/
def result_handlers : Registry :=
  fun ty =>
    if ty = "Error" then some (fun c k _ => Except.ok (Cell.error k c.errorString))
    else none

/-- A registry with no decoders registered (every raw cell passes through). -/
def emptyHandlers : Registry := fun _ => none

/-! ## Dispatch Worker, one iteration (risk.py lines 115-126) -/

/-- The body of one `execute_requests` iteration for a non-empty drained
chunk: on success the `(request, result)` pairs are enqueued on `responses`
(first component); if `calc_multi` raises, one `(request, exception)` pair
per request of the chunk is enqueued on `raw_results` (second component). -/
def execute_chunk
    (calcMulti : List RiskRequest → Except String (List (RiskRequest × Grid)))
    (chunk : List RiskRequest) :
    List (RiskRequest × Grid) × List (RiskRequest × RawResult) :=
  match calcMulti chunk with
  | .ok pairs => (pairs, [])
  | .error e => ([], chunk.map fun r => (r, Except.error e))

/-! ## Flow-Controlled Orchestrator, window accounting (risk.py lines 149-169)

The in-flight window is a property of counts alone: how many requests are
still unsubmitted, how many are submitted-but-uncompleted, and the current
`chunk_size`.  `OrchState` abstracts the loop of lines 154-169 to exactly
these counts; one `orchStep` is one loop iteration, driven by the number of
completed items the subsequent drain returns. -/

structure OrchState where
  remaining : Nat
  inflight : Nat
  chunkSize : Nat
deriving DecidableEq, Repr

/-- Loop entry (lines 150-152): nothing submitted,
`chunk_size = min(max_concurrent, len(requests))`. -/
def orchInit (maxConcurrent total : Nat) : OrchState :=
  ⟨total, 0, min maxConcurrent total⟩

/-- Lines 155-160: when unsubmitted requests remain, `chunk_size` of them are
popped and enqueued for dispatch (they become in-flight); otherwise nothing
happens. -/
def orchEnqueue (s : OrchState) : OrchState :=
  if 0 < s.remaining then
    ⟨s.remaining - s.chunkSize, s.inflight + s.chunkSize, s.chunkSize⟩
  else s

/-- One full iteration: enqueue (lines 155-160), then drain `c` completed
items (line 163, reducing the in-flight count) and set
`chunk_size = min(len(completed), len(requests))` (line 169). -/
def orchStep (s : OrchState) (c : Nat) : OrchState :=
  let s1 := orchEnqueue s
  ⟨s1.remaining, s1.inflight - c, min c s1.remaining⟩

/-- All states at iteration boundaries along a run driven by the completion
counts `cs`. -/
def orchStates (s : OrchState) : List Nat → List OrchState
  | [] => [s]
  | c :: cs => s :: orchStates (orchStep s c) cs

/-- A completion sequence is feasible when each drain returns at least one
item (`drain_queue_async` blocks until one exists) and no more items than
are actually in flight after the enqueue that precedes it. -/
def feasibleTrace (s : OrchState) : List Nat → Bool
  | [] => true
  | c :: cs =>
    decide (1 ≤ c) && decide (c ≤ (orchEnqueue s).inflight) &&
      feasibleTrace (orchStep s c) cs

/-! ## The `run_async` loop (risk.py lines 132-183) -/

/-- One return value of `await cls.drain_queue_async(raw_results)` (line
163): the shutdown flag and the completed `(request, result)` pairs. -/
abbrev DrainEvent := Bool × List (RiskRequest × RawResult)

/-- The loop state of `run_async`: the unsubmitted `requests` list (popped
from the front), `chunk_size`, the `received` counter and the accumulated
`results` dict. -/
structure RunState where
  requests : List RiskRequest
  chunkSize : Nat
  received : Nat
  acc : ResultMap
deriving Repr

/-- Lines 172-178: per completed pair, flatten via `_handle_results` and
merge into the accumulated dict (the `received` counter and progress bar are
handled by the caller). -/
def processCompleted (provider : Nat) (handlers : Registry) (acc : ResultMap)
    (completed : List (RiskRequest × RawResult)) : ResultMap :=
  completed.foldl (fun a rr => pyUpdate a (handle_results provider handlers rr.1 rr.2)) acc

/-- The `while received < expected` loop (lines 154-178), driven by the
sequence of drain results: pop/enqueue a chunk when requests remain (lines
155-160), drain (line 163), break on an observed shutdown (lines 164-166),
otherwise replenish the window (line 169) and fold the completed results in
(lines 172-178).  `none` models the loop blocked forever in a drain no
producer will ever satisfy. -/
def runAsyncLoop (provider : Nat) (handlers : Registry) (expected : Nat) :
    RunState → List DrainEvent → Option ResultMap
  | s, events =>
    if s.received < expected then
      match events with
      | [] => none
      | (shutdown, completed) :: rest =>
        let s1 : RunState :=
          if s.requests.isEmpty then s
          else { s with requests := s.requests.drop s.chunkSize }
        if shutdown then some s1.acc
        else
          runAsyncLoop provider handlers expected
            { requests := s1.requests
              chunkSize := min completed.length s1.requests.length
              received := s1.received + completed.length
              acc := processCompleted provider handlers s1.acc completed } rest
    else some s.acc

/-- `run` / `run_async` entry (lines 102-152 and 180-186).  Line 133 reads
`requests[0].wait_for_results` before any emptiness guard: on an empty list
this is an `IndexError`, surfaced to the caller by `asyncio.run`
(`Except.error`).  Otherwise `expected = len(requests)` and
`chunk_size = min(max_concurrent, len(requests))` seed the loop.  The final
`await results_handler` (line 181) is modelled from the spec as completing
without raising: the Result Subscriber contract requires it to signal
shutdown on `raw_results` and end its own task cleanly on failure. -/
def run (provider : Nat) (handlers : Registry) (maxConcurrent : Nat)
    (requests : List RiskRequest) (events : List DrainEvent) :
    Except String (Option ResultMap) :=
  match requests with
  | [] => Except.error "IndexError: list index out of range"
  | r0 :: _ =>
    let _isAsync := !r0.wait_for_results
    Except.ok (runAsyncLoop provider handlers requests.length
      { requests := requests
        chunkSize := min maxConcurrent requests.length
        received := 0
        acc := [] } events)

/-! ## Derived notions used by the statements -/

/-- The orchestrator invariant behind the in-flight bound: the window that
the next enqueue may open never overshoots the budget, and `chunk_size`
never exceeds what is left to submit (so the `range(chunk_size)` pops of
line 157 cannot underflow). -/
def orchInv (maxConcurrent : Nat) (s : OrchState) : Prop :=
  s.inflight + s.chunkSize ≤ maxConcurrent ∧ s.chunkSize ≤ s.remaining

/-- All completed `(request, result)` pairs delivered by a sequence of drain
results, in order. -/
def allCompleted (events : List DrainEvent) : List (RiskRequest × RawResult) :=
  events.flatMap fun ev => ev.2

/-- The results dict accumulated from scratch over a completion sequence. -/
def accumulate (provider : Nat) (handlers : Registry)
    (completed : List (RiskRequest × RawResult)) : ResultMap :=
  processCompleted provider handlers [] completed

/-- The flattened assignment sequence of a completion list, before dict
deduplication. -/
def flatEntries (provider : Nat) (handlers : Registry)
    (completed : List (RiskRequest × RawResult)) : List Entry :=
  completed.flatMap fun rr => handle_results provider handlers rr.1 rr.2

/-- The spec's predicted expansion of a whole-batch failure: one error cell
per (measure, position, as-of) combination, all carrying the same message
and the computed key.  Written from the spec's words, to be compared with
`handle_results` on an exception result. -/
def specUniformErrorCells (provider : Nat) (req : RiskRequest) (msg : String) :
    List Entry :=
  req.measures.flatMap fun m =>
    req.positions.flatMap fun p =>
      req.pricing_and_market_data_as_of.map fun a =>
        ((mkKey provider a req m, p.instrument), Cell.error (mkKey provider a req m) msg)

/-- Positional access into a result grid, with inert defaults. -/
def gridGet (g : Grid) (i j k : Nat) : RawCell :=
  ((g.getD i []).getD j []).getD k ⟨"", "", 0⟩

/-- The flattening expressed pointwise: entry (i, j, k) of the output is a
function of the (i, j, k) components of the request and of cell (i, j, k)
of the grid alone. -/
def rangeFlatten (provider : Nat) (handlers : Registry) (req : RiskRequest)
    (g : Grid) : List Entry :=
  (List.range req.measures.length).flatMap fun i =>
    (List.range req.positions.length).flatMap fun j =>
      (List.range req.pricing_and_market_data_as_of.length).map fun k =>
        flattenEntry provider handlers req (req.measures.getD i 0)
          (req.positions.getD j ⟨0⟩)
          (req.pricing_and_market_data_as_of.getD k ⟨0, 0⟩)
          (gridGet g i j k)

/-- A grid whose shape agrees with the request's declared counts. -/
def wellShaped (req : RiskRequest) (g : Grid) : Bool :=
  (g.length == req.measures.length) &&
    g.all fun pr =>
      (pr.length == req.positions.length) &&
        pr.all fun dr => dr.length == req.pricing_and_market_data_as_of.length

/-- Every decoder invoked while flattening this grid returns normally. -/
def decodersSucceed (provider : Nat) (handlers : Registry) (r : RiskRequest)
    (g : Grid) : Bool :=
  (r.measures.zip g).all fun mp =>
    (r.positions.zip mp.2).all fun pp =>
      (r.pricing_and_market_data_as_of.zip pp.2).all fun ap =>
        match handlers ap.2.ty with
        | some h =>
          match h ap.2 (mkKey provider ap.1 r mp.1) pp.1.instrument with
          | .ok _ => true
          | .error _ => false
        | none => true

/-- Declared size of one request's result cube. -/
def prodSize (r : RiskRequest) : Nat :=
  r.measures.length * (r.positions.length * r.pricing_and_market_data_as_of.length)

/-! ## Concrete sample inputs -/

def reqA : RiskRequest := ⟨[1], [⟨10⟩], [⟨100, 200⟩], 0, 0, true⟩

def reqB : RiskRequest := ⟨[2], [⟨11⟩], [⟨101, 201⟩], 3, 4, true⟩

/-- A request declaring two measures. -/
def reqC4 : RiskRequest := ⟨[1, 2], [⟨10⟩], [⟨5, 6⟩], 0, 0, true⟩

/-- A grid with results for only one measure: its shape disagrees with
`reqC4`. -/
def gridC4 : Grid := [[[⟨"X", "", 7⟩]]]

/-- A request whose two positions wrap the same instrument. -/
def reqDup : RiskRequest := ⟨[1], [⟨7⟩, ⟨7⟩], [⟨5, 6⟩], 0, 0, true⟩

def cX : RawCell := ⟨"X", "", 3⟩

def gridDup : Grid := [[[cX], [cX]]]

def eventsDup : List DrainEvent := [(false, [(reqDup, Except.ok gridDup)])]

/-- A well-shaped all-success grid for `reqA`. -/
def gridA : Grid := [[[cX]]]

def eventsA : List DrainEvent := [(false, [(reqA, Except.ok gridA)])]

/-- A registry with one decoder that always raises and one that decodes the
cell's payload. -/
def exRegistry : Registry :=
  fun ty =>
    if ty = "Boom" then some fun _ _ _ => Except.error "kaput"
    else if ty = "Ok" then some fun c _ _ => Except.ok (Cell.decoded c.payload)
    else none

def req5 : RiskRequest := ⟨[1], [⟨10⟩, ⟨11⟩], [⟨5, 6⟩], 0, 0, true⟩

/-- Well-shaped for `req5`; the first position's cell makes its decoder
raise, the second decodes normally. -/
def grid5 : Grid := [[[⟨"Boom", "", 0⟩], [⟨"Ok", "", 42⟩]]]

/-! ## Dict lemmas -/

theorem pyInsert_fresh {κ ν : Type} [DecidableEq κ] (d : List (κ × ν)) (k : κ)
    (v : ν) (h : ∀ e ∈ d, e.1 ≠ k) : pyInsert d k v = d ++ [(k, v)] := by
  have hA : ¬ (d.any fun e => e.1 = k) = true := by
    simp only [List.any_eq_true, decide_eq_true_eq]
    rintro ⟨e, he, hek⟩
    exact h e he hek
  simp [pyInsert, hA]

theorem calc_multi_loop {Res : Type} (calcFn : RiskRequest → Res)
    (reqs : List RiskRequest) :
    ∀ acc : List (RiskRequest × Res), reqs.Nodup →
      (∀ r ∈ reqs, ∀ e ∈ acc, e.1 ≠ r) →
      reqs.foldl (fun d r => pyInsert d r (calcFn r)) acc
        = acc ++ reqs.map fun r => (r, calcFn r) := by
  induction reqs with
  | nil => intro acc _ _; simp
  | cons r rs ih =>
    intro acc hnd hdisj
    simp only [List.foldl_cons, List.map_cons]
    rw [pyInsert_fresh acc r (calcFn r) fun e he => hdisj r (by simp) e he]
    rw [ih (acc ++ [(r, calcFn r)]) (List.Nodup.of_cons hnd) ?_]
    · simp
    · intro x hx e he
      rcases List.mem_append.mp he with h1 | h2
      · exact hdisj x (List.mem_cons_of_mem r hx) e h1
      · have hex : e = (r, calcFn r) := by simpa using h2
        subst hex
        intro hrx
        have hr : r ∈ rs := by
          rw [show r = x from hrx]
          exact hx
        exact (List.nodup_cons.mp hnd).1 hr

/-! ## Claim theorems: channel bridge and simple entry points -/

/-- C8: if the first item retrieved by `drain_queue` is the shutdown
sentinel, it returns `(true, [])` immediately and does not retrieve anything
further — the rest of the queue is left exactly as it was. -/
theorem drain_first_sentinel_immediate {α : Type} (rest : List (QItem α)) :
    drain_queue (QItem.sentinel :: rest) = some ((true, []), rest) := rfl

/-- C7 is refuted: draining a channel holding exactly the shutdown sentinel
does return `(true, [])`, but the sentinel is consumed by `q.get()`, so a
repeated `drain_queue` on that same channel blocks forever in `q.get()`
(`none`) instead of returning `(true, [])` again. -/
theorem drain_shutdown_not_idempotent_cex :
    drain_queue ([QItem.sentinel] : List (QItem Nat)) = some ((true, []), []) ∧
    ¬ ∃ q, drain_queue ([] : List (QItem Nat)) = some ((true, []), q) := by
  refine ⟨rfl, ?_⟩
  rintro ⟨q, h⟩
  simp [drain_queue] at h

/-- C7 amended: a single drain of a channel whose only item is the shutdown
sentinel returns `(true, [])` and consumes the sentinel; a repeated drain of
that channel then blocks forever, because `q.get()` waits for an item that
invariant 5 says will never arrive. -/
theorem drain_shutdown_consumes_sentinel {α : Type} :
    drain_queue ([QItem.sentinel] : List (QItem α)) = some ((true, []), []) ∧
    drain_queue ([] : List (QItem α)) = none :=
  ⟨rfl, rfl⟩

/-- C10: `run` on an empty requests list reads `requests[0].wait_for_results`
before any guard and so raises `IndexError` instead of returning an empty
result map. -/
theorem run_empty_requests_raises (provider : Nat) (handlers : Registry)
    (maxConcurrent : Nat) (events : List DrainEvent) :
    run provider handlers maxConcurrent [] events
      = Except.error "IndexError: list index out of range" ∧
    ∀ d, run provider handlers maxConcurrent [] events ≠ Except.ok d :=
  ⟨rfl, fun _ h => by simp [run] at h⟩

/-- C9: the default `calc_multi` builds the dict `{r: calc(r) for r in requests}`;
for pairwise-distinct requests its keys are exactly the given requests in
iteration order and each maps to `calc` of itself. -/
theorem calc_multi_default {Res : Type} (calcFn : RiskRequest → Res)
    (requests : List RiskRequest) (hnd : requests.Nodup) :
    calc_multi calcFn requests = requests.map fun r => (r, calcFn r) := by
  unfold calc_multi
  simpa using calc_multi_loop calcFn requests [] hnd (by simp)

theorem calc_multi_default_witness :
    calc_multi (fun r => r.parameters) [reqA, reqB] = [(reqA, 0), (reqB, 3)] :=
  calc_multi_default (fun r => r.parameters) [reqA, reqB] (by decide)

/-! ## Flattener length (zip truncation) -/

theorem handle_results_ok_length (provider : Nat) (handlers : Registry)
    (req : RiskRequest) (g : Grid) :
    (handle_results provider handlers req (Except.ok g)).length
      = ((req.measures.zip g).map fun mp =>
          ((req.positions.zip mp.2).map fun pp =>
            min req.pricing_and_market_data_as_of.length pp.2.length).sum).sum := by
  simp [handle_results, List.length_flatMap, List.map_map, Function.comp_def,
    List.length_map, List.length_zip]

/-- C4 is refuted: on a request declaring two measures paired with a result
grid holding only one, the flattener raises nothing — it silently produces
the partially flattened map covering exactly the overlapping measure. -/
theorem shape_mismatch_fatal_cex :
    reqC4.measures.length = 2 ∧ gridC4.length = 1 ∧
    handle_results 0 emptyHandlers reqC4 (Except.ok gridC4)
      = [((⟨0, 5, 6, 0, 0, 1⟩, 10), Cell.raw ⟨"X", "", 7⟩)] :=
  ⟨rfl, rfl, by decide⟩

/-- C4 amended: on a structural mismatch the flattener does not raise; the
three `zip`s of lines 220-222 truncate to the shorter operand, so it
silently flattens exactly the overlapping prefix of each ordering — the
output size is the min-truncated product below, for every request and every
grid shape. -/
theorem shape_mismatch_truncates (provider : Nat) (handlers : Registry)
    (req : RiskRequest) (g : Grid) :
    (handle_results provider handlers req (Except.ok g)).length
      = ((req.measures.zip g).map fun mp =>
          ((req.positions.zip mp.2).map fun pp =>
            min req.pricing_and_market_data_as_of.length pp.2.length).sum).sum :=
  handle_results_ok_length provider handlers req g

/-! ## C1: the in-flight bound -/

theorem orchInv_inflight_le {maxConcurrent : Nat} {s : OrchState}
    (h : orchInv maxConcurrent s) : s.inflight ≤ maxConcurrent := by
  rcases h with ⟨h1, _⟩
  omega

theorem orchEnqueue_inflight_le {maxConcurrent : Nat} {s : OrchState}
    (h : orchInv maxConcurrent s) : (orchEnqueue s).inflight ≤ maxConcurrent := by
  rcases h with ⟨h1, h2⟩
  unfold orchEnqueue
  by_cases h0 : 0 < s.remaining
  · rw [if_pos h0]
    show s.inflight + s.chunkSize ≤ maxConcurrent
    omega
  · rw [if_neg h0]
    omega

theorem orchInv_step {maxConcurrent : Nat} {s : OrchState} {c : Nat}
    (h : orchInv maxConcurrent s) (hc : c ≤ (orchEnqueue s).inflight) :
    orchInv maxConcurrent (orchStep s c) := by
  rcases h with ⟨h1, h2⟩
  unfold orchInv orchStep orchEnqueue at *
  by_cases h0 : 0 < s.remaining <;> simp [h0] at hc ⊢ <;> omega

theorem orch_bounded_aux (maxConcurrent : Nat) (cs : List Nat) :
    ∀ s : OrchState, orchInv maxConcurrent s → feasibleTrace s cs = true →
      ∀ t ∈ orchStates s cs,
        t.inflight ≤ maxConcurrent ∧ (orchEnqueue t).inflight ≤ maxConcurrent := by
  induction cs with
  | nil =>
    intro s hInv _ t ht
    simp [orchStates] at ht
    subst ht
    exact ⟨orchInv_inflight_le hInv, orchEnqueue_inflight_le hInv⟩
  | cons c cs ih =>
    intro s hInv hf t ht
    simp only [feasibleTrace, Bool.and_eq_true, decide_eq_true_eq] at hf
    rcases hf with ⟨⟨_, hc⟩, hf⟩
    simp only [orchStates, List.mem_cons] at ht
    rcases ht with ht | ht
    · subst ht
      exact ⟨orchInv_inflight_le hInv, orchEnqueue_inflight_le hInv⟩
    · exact ih (orchStep s c) (orchInv_step hInv hc) hf t ht

/-- C1: for any total request count, any `max_concurrent >= 1` and any
feasible completion order, the number of requests submitted but not yet
completed never exceeds `max_concurrent`: the initial window is
`min(max_concurrent, total)`, and every state reached by the orchestrator
loop keeps the in-flight count — including its peak right after the enqueue
of a replenishment chunk — within the bound. -/
theorem orch_inflight_bounded (maxConcurrent total : Nat) (cs : List Nat)
    (_hmax : 1 ≤ maxConcurrent)
    (hfeasible : feasibleTrace (orchInit maxConcurrent total) cs = true) :
    (orchInit maxConcurrent total).chunkSize = min maxConcurrent total ∧
    ∀ t ∈ orchStates (orchInit maxConcurrent total) cs,
      t.inflight ≤ maxConcurrent ∧ (orchEnqueue t).inflight ≤ maxConcurrent := by
  refine ⟨rfl, ?_⟩
  apply orch_bounded_aux maxConcurrent cs (orchInit maxConcurrent total) ?_ hfeasible
  unfold orchInv orchInit
  constructor
  · show 0 + min maxConcurrent total ≤ maxConcurrent
    omega
  · show min maxConcurrent total ≤ total
    omega

theorem orch_inflight_bounded_witness :
    (orchInit 2 5).chunkSize = min 2 5 ∧
    ∀ t ∈ orchStates (orchInit 2 5) [2, 2, 1],
      t.inflight ≤ 2 ∧ (orchEnqueue t).inflight ≤ 2 :=
  orch_inflight_bounded 2 5 [2, 2, 1] (by decide) (by decide)

/-! ## C2: whole-batch failure -/

theorem zip_replicate_self {α β : Type} (xs : List α) (b : β) :
    xs.zip (List.replicate xs.length b) = xs.map fun x => (x, b) := by
  induction xs with
  | nil => rfl
  | cons x xs ih => simp [List.replicate_succ, ih]

/-- C2: when the backend batch capability raises with message `e`, the
worker enqueues one `(request, exception)` pair per request of the chunk
(and nothing on the responses channel), and the flattener expands each such
pair into exactly one error cell per (measure, position, as-of) combination
of that request, every cell carrying the computed key and the message `e` —
no success cell anywhere in the batch. -/
theorem batch_failure_uniform_error_cells (provider : Nat)
    (calcMulti : List RiskRequest → Except String (List (RiskRequest × Grid)))
    (chunk : List RiskRequest) (e : String)
    (hfail : calcMulti chunk = Except.error e) :
    execute_chunk calcMulti chunk = ([], chunk.map fun r => (r, Except.error e)) ∧
    ∀ r ∈ chunk,
      handle_results provider result_handlers r (Except.error e)
        = specUniformErrorCells provider r e := by
  constructor
  · simp [execute_chunk, hfail]
  · intro r _
    simp only [handle_results, errorGrid, specUniformErrorCells,
      zip_replicate_self, List.flatMap_map, Function.comp_def]
    apply List.flatMap_congr
    intro m _
    apply List.flatMap_congr
    intro p _
    simp [List.map_map, Function.comp_def, flattenEntry, applyHandler,
      result_handlers, errorDict, mkKey]

theorem batch_failure_uniform_error_cells_witness :
    execute_chunk (fun _ => Except.error "boom") [reqA, reqB]
      = ([], [reqA, reqB].map fun r => (r, Except.error "boom")) ∧
    ∀ r ∈ [reqA, reqB],
      handle_results 0 result_handlers r (Except.error "boom")
        = specUniformErrorCells 0 r "boom" :=
  batch_failure_uniform_error_cells 0 (fun _ => Except.error "boom")
    [reqA, reqB] "boom" rfl

/-! ## C5: per-cell decode isolation -/

theorem zip_flatMap_eq_range {α β γ : Type} (f : α × β → List γ) (dx : α) (dy : β) :
    ∀ (xs : List α) (ys : List β), ys.length = xs.length →
      (xs.zip ys).flatMap f
        = (List.range xs.length).flatMap fun i => f (xs.getD i dx, ys.getD i dy) := by
  intro xs
  induction xs with
  | nil => intro ys h; simp
  | cons x xs ih =>
    intro ys h
    cases ys with
    | nil => simp at h
    | cons y ys =>
      simp only [List.zip_cons_cons, List.flatMap_cons, List.length_cons]
      rw [List.range_succ_eq_map]
      simp only [List.flatMap_cons, List.flatMap_map, List.getD_cons_zero,
        List.getD_cons_succ]
      rw [ih ys (by simpa using h)]

theorem zip_map_eq_range {α β γ : Type} (f : α × β → γ) (dx : α) (dy : β) :
    ∀ (xs : List α) (ys : List β), ys.length = xs.length →
      (xs.zip ys).map f
        = (List.range xs.length).map fun i => f (xs.getD i dx, ys.getD i dy) := by
  intro xs
  induction xs with
  | nil => intro ys h; simp
  | cons x xs ih =>
    intro ys h
    cases ys with
    | nil => simp at h
    | cons y ys =>
      simp only [List.zip_cons_cons, List.map_cons, List.length_cons]
      rw [List.range_succ_eq_map]
      simp only [List.map_cons, List.map_map, List.getD_cons_zero,
        Function.comp_def, List.getD_cons_succ]
      rw [ih ys (by simpa using h)]

/-- C5: on a well-shaped result the flattened output is pointwise — entry
(i, j, k) is a function of the request's i-th measure, j-th position, k-th
as-of point and of grid cell (i, j, k) alone, so a decoder that raises for
one triple replaces exactly that triple's cell with an error value carrying
the computed key and the exception message, while every sibling triple is
flattened to its own normal value (decoded, or the raw cell when no decoder
is registered), unaffected. -/
theorem decoder_failure_isolated (provider : Nat) (handlers : Registry)
    (req : RiskRequest) (g : Grid) (hshape : wellShaped req g = true) :
    handle_results provider handlers req (Except.ok g)
      = rangeFlatten provider handlers req g ∧
    (∀ m pos a dr h e, handlers dr.ty = some h →
       h dr (mkKey provider a req m) pos.instrument = Except.error e →
       flattenEntry provider handlers req m pos a dr
         = ((mkKey provider a req m, pos.instrument),
            Cell.error (mkKey provider a req m) e)) ∧
    (∀ m pos a dr h c, handlers dr.ty = some h →
       h dr (mkKey provider a req m) pos.instrument = Except.ok c →
       flattenEntry provider handlers req m pos a dr
         = ((mkKey provider a req m, pos.instrument), c)) ∧
    (∀ m pos a dr, handlers dr.ty = none →
       flattenEntry provider handlers req m pos a dr
         = ((mkKey provider a req m, pos.instrument), Cell.raw dr)) := by
  simp only [wellShaped, Bool.and_eq_true, beq_iff_eq, List.all_eq_true] at hshape
  obtain ⟨hm, hrest⟩ := hshape
  have hgd : ∀ i, i < req.measures.length →
      (g.getD i []).length = req.positions.length := by
    intro i hi
    have hig : i < g.length := by omega
    have hmem : g.getD i [] ∈ g := by
      rw [List.getD_eq_getElem g [] hig]
      exact List.getElem_mem hig
    exact (hrest _ hmem).1
  have hdd : ∀ i j, i < req.measures.length → j < req.positions.length →
      ((g.getD i []).getD j []).length
        = req.pricing_and_market_data_as_of.length := by
    intro i j hi hj
    have hig : i < g.length := by omega
    have hmem : g.getD i [] ∈ g := by
      rw [List.getD_eq_getElem g [] hig]
      exact List.getElem_mem hig
    have hj2 : j < (g.getD i []).length := by
      rw [(hrest _ hmem).1]
      exact hj
    have hmem2 : (g.getD i []).getD j [] ∈ g.getD i [] := by
      rw [List.getD_eq_getElem (g.getD i []) [] hj2]
      exact List.getElem_mem hj2
    exact (hrest _ hmem).2 _ hmem2
  refine ⟨?_, ?_, ?_, ?_⟩
  · simp only [handle_results]
    rw [zip_flatMap_eq_range _ 0 ([] : List (List RawCell)) req.measures g hm]
    unfold rangeFlatten
    apply List.flatMap_congr
    intro i hi
    have hiM := List.mem_range.mp hi
    dsimp only
    rw [zip_flatMap_eq_range _ (⟨0⟩ : Position) ([] : List RawCell)
      req.positions (g.getD i []) (hgd i hiM)]
    apply List.flatMap_congr
    intro j hj
    have hjP := List.mem_range.mp hj
    dsimp only
    rw [zip_map_eq_range _ (⟨0, 0⟩ : AsOf) (⟨"", "", 0⟩ : RawCell)
      req.pricing_and_market_data_as_of ((g.getD i []).getD j [])
      (hdd i j hiM hjP)]
    apply List.map_congr_left
    intro k _
    simp [gridGet]
  · intro m pos a dr h e hha hhe
    simp [flattenEntry, applyHandler, hha, hhe]
  · intro m pos a dr h c hha hhc
    simp [flattenEntry, applyHandler, hha, hhc]
  · intro m pos a dr hna
    simp [flattenEntry, applyHandler, hna]

theorem decoder_failure_isolated_witness :
    handle_results 0 exRegistry req5 (Except.ok grid5)
      = rangeFlatten 0 exRegistry req5 grid5 :=
  (decoder_failure_isolated 0 exRegistry req5 grid5 (by decide)).1

/-! ## C3: early shutdown truncates the run silently -/

theorem runAsyncLoop_shutdown_early (provider : Nat) (handlers : Registry)
    (expected : Nat) (b : List (RiskRequest × RawResult))
    (post : List DrainEvent) :
    ∀ (pre : List DrainEvent) (s : RunState),
      (∀ ev ∈ pre, ev.1 = false) →
      s.received + (pre.map fun ev => ev.2.length).sum < expected →
      runAsyncLoop provider handlers expected s (pre ++ (true, b) :: post)
        = some (processCompleted provider handlers s.acc (allCompleted pre)) := by
  intro pre
  induction pre with
  | nil =>
    intro s _ hlt
    simp only [List.map_nil, List.sum_nil, Nat.add_zero] at hlt
    rw [List.nil_append, runAsyncLoop]
    simp only [if_pos hlt]
    by_cases hq : s.requests.isEmpty <;>
      simp [hq, processCompleted, allCompleted]
  | cons ev pre ih =>
    intro s hpre hlt
    obtain ⟨sh, c⟩ := ev
    have hsh : sh = false := hpre (sh, c) (by simp)
    subst hsh
    simp only [List.map_cons, List.sum_cons] at hlt
    have hrecv : s.received < expected := by omega
    rw [List.cons_append, runAsyncLoop]
    simp only [if_pos hrecv]
    have hall : allCompleted ((false, c) :: pre) = c ++ allCompleted pre := by
      simp [allCompleted]
    by_cases hq : s.requests.isEmpty
    · simp only [hq, if_true, if_pos, ite_true, Bool.false_eq_true, ite_false]
      rw [ih _ (fun e he => hpre e (List.mem_cons_of_mem _ he)) (by simp; omega)]
      simp [hall, processCompleted, List.foldl_append]
    · simp only [hq, Bool.false_eq_true, ite_false]
      rw [ih _ (fun e he => hpre e (List.mem_cons_of_mem _ he)) (by simp; omega)]
      simp [hall, processCompleted, List.foldl_append]

/-- C3: when a drain of raw results reports an observed shutdown before all
expected results arrived, `run` breaks out of the loop immediately — no
later drain event is consumed — and returns the results accumulated from
the completed batches so far, as a normal return (`Except.ok`), raising
nothing to the caller. -/
theorem shutdown_truncates_run_silently (provider : Nat) (handlers : Registry)
    (maxConcurrent : Nat) (r0 : RiskRequest) (rest : List RiskRequest)
    (pre : List DrainEvent) (b : List (RiskRequest × RawResult))
    (post : List DrainEvent)
    (hpre : ∀ ev ∈ pre, ev.1 = false)
    (hlt : (pre.map fun ev => ev.2.length).sum < (r0 :: rest).length) :
    run provider handlers maxConcurrent (r0 :: rest) (pre ++ (true, b) :: post)
      = Except.ok (some (accumulate provider handlers (allCompleted pre))) := by
  unfold run accumulate
  rw [runAsyncLoop_shutdown_early provider handlers (r0 :: rest).length b post
    pre _ hpre (by simpa using hlt)]

theorem shutdown_truncates_run_silently_witness :
    run 0 emptyHandlers 2 [reqA, reqB]
        ([(false, [(reqA, Except.error "boom")])] ++ (true, []) :: [])
      = Except.ok (some (accumulate 0 emptyHandlers
          (allCompleted [(false, [(reqA, Except.error "boom")])]))) :=
  shutdown_truncates_run_silently 0 emptyHandlers 2 reqA [reqB]
    [(false, [(reqA, Except.error "boom")])] [] []
    (by decide) (by decide)

/-! ## C6: result-map size on a fully successful run -/

theorem runAsyncLoop_complete (provider : Nat) (handlers : Registry)
    (expected : Nat) :
    ∀ (events : List DrainEvent) (s : RunState),
      (∀ ev ∈ events, ev.1 = false) →
      (∀ ev ∈ events, 0 < ev.2.length) →
      s.received + (events.map fun ev => ev.2.length).sum = expected →
      runAsyncLoop provider handlers expected s events
        = some (processCompleted provider handlers s.acc (allCompleted events)) := by
  intro events
  induction events with
  | nil =>
    intro s _ _ heq
    simp only [List.map_nil, List.sum_nil, Nat.add_zero] at heq
    rw [runAsyncLoop]
    rw [if_neg (by omega)]
    simp [processCompleted, allCompleted]
  | cons ev evs ih =>
    intro s hsh hne heq
    obtain ⟨sh, c⟩ := ev
    have hshf : sh = false := hsh (sh, c) (by simp)
    subst hshf
    have hclen : 0 < c.length := hne (false, c) (by simp)
    simp only [List.map_cons, List.sum_cons] at heq
    have hrecv : s.received < expected := by omega
    rw [runAsyncLoop]
    simp only [if_pos hrecv]
    have hall : allCompleted ((false, c) :: evs) = c ++ allCompleted evs := by
      simp [allCompleted]
    by_cases hq : s.requests.isEmpty
    · simp only [hq, ite_true, Bool.false_eq_true, ite_false]
      rw [ih _ (fun e he => hsh e (List.mem_cons_of_mem _ he))
        (fun e he => hne e (List.mem_cons_of_mem _ he)) (by simp; omega)]
      simp [hall, processCompleted, List.foldl_append]
    · simp only [hq, Bool.false_eq_true, ite_false]
      rw [ih _ (fun e he => hsh e (List.mem_cons_of_mem _ he))
        (fun e he => hne e (List.mem_cons_of_mem _ he)) (by simp; omega)]
      simp [hall, processCompleted, List.foldl_append]

theorem pyUpdate_append {κ ν : Type} [DecidableEq κ] :
    ∀ (entries d : List (κ × ν)),
      (d.map Prod.fst ++ entries.map Prod.fst).Nodup →
      pyUpdate d entries = d ++ entries := by
  intro entries
  induction entries with
  | nil => intro d _; simp [pyUpdate]
  | cons e es ih =>
    intro d hnd
    obtain ⟨k, v⟩ := e
    have hnd2 : (d.map Prod.fst ++ k :: es.map Prod.fst).Nodup := by
      simpa using hnd
    have hfresh : ∀ x ∈ d, x.1 ≠ k := by
      intro x hx hxk
      have h1 : k ∈ d.map Prod.fst := List.mem_map.mpr ⟨x, hx, hxk⟩
      exact (List.nodup_append.mp hnd2).2.2 h1 (by simp)
    simp only [pyUpdate, List.foldl_cons]
    rw [pyInsert_fresh d k v hfresh]
    have hnd3 : ((d ++ [(k, v)]).map Prod.fst ++ es.map Prod.fst).Nodup := by
      simp only [List.map_append, List.map_cons, List.map_nil]
      rw [← List.append_cons]
      simpa using hnd2
    have := ih (d ++ [(k, v)]) hnd3
    simp only [pyUpdate] at this
    rw [this]
    simp

theorem processCompleted_eq_flat (provider : Nat) (handlers : Registry) :
    ∀ (completed : List (RiskRequest × RawResult)) (d : ResultMap),
      (d.map Prod.fst
        ++ (flatEntries provider handlers completed).map Prod.fst).Nodup →
      processCompleted provider handlers d completed
        = d ++ flatEntries provider handlers completed := by
  intro completed
  induction completed with
  | nil => intro d _; simp [processCompleted, flatEntries]
  | cons rr rs ih =>
    intro d hnd
    have hflat : flatEntries provider handlers (rr :: rs)
        = handle_results provider handlers rr.1 rr.2
            ++ flatEntries provider handlers rs := by
      simp [flatEntries]
    rw [hflat] at hnd
    simp only [List.map_append] at hnd
    rw [← List.append_assoc] at hnd
    have hup : pyUpdate d (handle_results provider handlers rr.1 rr.2)
        = d ++ handle_results provider handlers rr.1 rr.2 :=
      pyUpdate_append _ d (List.Nodup.of_append_left hnd)
    have hih := ih (d ++ handle_results provider handlers rr.1 rr.2)
      (by simpa [List.map_append] using hnd)
    simp only [processCompleted, List.foldl_cons] at hih ⊢
    rw [hup, hih, hflat, List.append_assoc]

theorem sum_map_const_on {α : Type} (l : List α) (f : α → Nat) (c : Nat)
    (h : ∀ x ∈ l, f x = c) : (l.map f).sum = l.length * c := by
  induction l with
  | nil => simp
  | cons x xs ih =>
    simp only [List.map_cons, List.sum_cons, List.length_cons]
    rw [h x (by simp), ih fun y hy => h y (by simp [hy])]
    ring

theorem handle_results_length_shaped (provider : Nat) (handlers : Registry)
    (req : RiskRequest) (g : Grid) (hshape : wellShaped req g = true) :
    (handle_results provider handlers req (Except.ok g)).length = prodSize req := by
  simp only [wellShaped, Bool.and_eq_true, beq_iff_eq, List.all_eq_true] at hshape
  obtain ⟨hm, hrest⟩ := hshape
  rw [handle_results_ok_length]
  unfold prodSize
  rw [sum_map_const_on _ _
    (req.positions.length * req.pricing_and_market_data_as_of.length) ?_]
  · rw [List.length_zip, hm, Nat.min_self]
  · rintro ⟨m1, pr⟩ hmp
    have hpr : pr ∈ g := (List.of_mem_zip hmp).2
    rw [sum_map_const_on _ _ req.pricing_and_market_data_as_of.length ?_]
    · rw [List.length_zip, (hrest _ hpr).1, Nat.min_self]
    · rintro ⟨p1, dr⟩ hpp
      have hdr : dr ∈ pr := (List.of_mem_zip hpp).2
      rw [(hrest _ hpr).2 _ hdr, Nat.min_self]

/-- C6 is refuted as stated: a run in which the single backend call succeeds
with a well-shaped grid and no decoder is even invoked (none registered)
returns a ResultMap with 1 entry, not the declared 1 x 2 x 1 = 2, because
the request's two positions wrap the same instrument and the two cells
collide on the same (ResultKey, instrument) dict key. -/
theorem full_success_count_cex :
    wellShaped reqDup gridDup = true ∧
    decodersSucceed 0 emptyHandlers reqDup gridDup = true ∧
    run 0 emptyHandlers 1 [reqDup] eventsDup
      = Except.ok (some [((⟨0, 5, 6, 0, 0, 1⟩, 7), Cell.raw cX)]) ∧
    ([reqDup].map prodSize).sum = 2 :=
  ⟨rfl, rfl, rfl, rfl⟩

/-- C6 amended: on a run where every backend call succeeds with a
well-shaped result and every invoked decoder succeeds, the returned
ResultMap has exactly sum over requests of measures x positions x as-of
entries, provided the computed (ResultKey, instrument) keys are pairwise
distinct across the run; colliding keys (e.g. duplicate instruments) are
overwritten last-write-wins and lower the count. -/
theorem full_success_count (provider : Nat) (handlers : Registry)
    (maxConcurrent : Nat) (r0 : RiskRequest) (rest : List RiskRequest)
    (events : List DrainEvent)
    (hsh : ∀ ev ∈ events, ev.1 = false)
    (hne : ∀ ev ∈ events, 0 < ev.2.length)
    (hperm : List.Perm ((allCompleted events).map Prod.fst) (r0 :: rest))
    (hok : ∀ rr ∈ allCompleted events,
      ∃ g, rr.2 = Except.ok g ∧ wellShaped rr.1 g = true)
    (_hdec : ∀ rr ∈ allCompleted events, ∀ g, rr.2 = Except.ok g →
      decodersSucceed provider handlers rr.1 g = true)
    (hkeys : ((flatEntries provider handlers (allCompleted events)).map
      Prod.fst).Nodup) :
    ∃ d, run provider handlers maxConcurrent (r0 :: rest) events
        = Except.ok (some d) ∧
      d.length = ((r0 :: rest).map prodSize).sum := by
  have hlen : (events.map fun ev => ev.2.length).sum = (r0 :: rest).length := by
    have h1 : (allCompleted events).length
        = (events.map fun ev => ev.2.length).sum := by
      simp [allCompleted, List.length_flatMap, Function.comp_def]
    have h2 := hperm.length_eq
    simp only [List.length_map] at h2
    omega
  refine ⟨flatEntries provider handlers (allCompleted events), ?_, ?_⟩
  · unfold run
    rw [runAsyncLoop_complete provider handlers _ events _ hsh hne
      (by
        show 0 + (events.map fun ev => ev.2.length).sum = (r0 :: rest).length
        rw [Nat.zero_add]
        exact hlen)]
    rw [processCompleted_eq_flat provider handlers (allCompleted events) []
      (by simpa using hkeys)]
    simp
  · unfold flatEntries
    rw [List.length_flatMap]
    simp only [Function.comp_def]
    have hcong : (allCompleted events).map
          (fun rr => (handle_results provider handlers rr.1 rr.2).length)
        = (allCompleted events).map fun rr => prodSize rr.1 := by
      apply List.map_congr_left
      intro rr hrr
      obtain ⟨g, hg, hsg⟩ := hok rr hrr
      rw [hg]
      exact handle_results_length_shaped provider handlers rr.1 g hsg
    rw [hcong]
    have hmm : (allCompleted events).map (fun rr => prodSize rr.1)
        = ((allCompleted events).map Prod.fst).map prodSize := by
      simp [List.map_map, Function.comp_def]
    rw [hmm]
    exact (hperm.map prodSize).sum_eq

theorem full_success_count_witness :
    ∃ d, run 0 emptyHandlers 2 [reqA] eventsA = Except.ok (some d) ∧
      d.length = ([reqA].map prodSize).sum := by
  apply full_success_count 0 emptyHandlers 2 reqA [] eventsA
    (by decide) (by decide) (by decide)
  · intro rr hrr
    have hrr2 : rr = (reqA, Except.ok gridA) := by
      simpa [eventsA, allCompleted] using hrr
    subst hrr2
    exact ⟨gridA, rfl, by decide⟩
  · intro rr hrr g hg
    have hrr2 : rr = (reqA, Except.ok gridA) := by
      simpa [eventsA, allCompleted] using hrr
    subst hrr2
    simp only at hg
    rw [Except.ok.injEq] at hg
    subst hg
    decide
  · decide

end RiskApiModel
